import Mathlib

/-!
Verification development for the go-monkey front end: a shallow embedding of
the parser (package parser) and the tree-walking evaluator (package evaluator),
with theorems checking the natural-language specification against the code.

Conventions of the embedding:
* Go interface values that may be nil are modelled as `Option Object`
  (`none` is the Go nil interface, a distinct absence of value).
* A Go runtime panic (nil-method call, failed type assertion, integer
  division by zero) aborts the host process; evaluation functions therefore
  return `Option _`, where the outer `none` marks such an abort.
* Go pointer identity is observable through the `==` comparison on
  `object.Object` interface values.  Heap allocations that can reach that
  comparison (`object.ReturnValue`, `object.Function`) carry an allocation
  id drawn from a counter threaded through evaluation; the two boolean
  singletons TRUE and FALSE carry the fixed ids 0 and 1, and `object.Null`
  has a single allocation, so it is modelled as a unit constructor.
-/

/-! ## Syntax tree model (package ast)

The ast source file is not part of the shown sources; the node variants are
pinned by §3 of the specification and by every construction and pattern in
the shown parser and evaluator. -/

mutual

/-- Expression nodes of the ast package.  `IfExpression` holds block
statements for its branches; the else branch (`otherwise`) may be absent. -/
inductive Expr where
  | Identifier (value : String)
  | IntegerLiteral (value : Int)
  | BooleanLiteral (value : Bool)
  | PrefixExpression (operator : String) (right : Expr)
  | InfixExpression (operator : String) (left : Expr) (right : Expr)
  | IfExpression (condition : Expr) (thenBlock : List Stmt) (otherwise : Option (List Stmt))
  | FunctionLiteral (parameters : List String) (body : List Stmt)
  | CallExpression (callee : Expr) (arguments : List Expr)

/-- Statement nodes of the ast package.  `LetStatement.value` is an
interface field and may be nil: the shown `parseLetStatement` never fills
it (it skips tokens up to the semicolon), so the absent case is `none`. -/
inductive Stmt where
  | LetStatement (name : String) (value : Option Expr)
  | ReturnStatement (returnValue : Expr)
  | ExpressionStatement (expression : Expr)
  | BlockStatement (statements : List Stmt)

end

/-! ## Runtime value model (package object)

The object source file is not part of the shown sources; the variants, the
`Type()` tags and the Environment operations are pinned by §3 of the
specification and by their uses in evaluator.go. -/

mutual

/-- Runtime values of the object package.  `boolean`, `returnValue` and
`function` carry an allocation id modelling Go pointer identity (see the
file header); `integer` and `error` allocations never reach an identity
comparison in the evaluator, so their ids are omitted. -/
inductive Object where
  | integer (value : Int)
  | boolean (id : Nat) (value : Bool)
  | null
  | returnValue (id : Nat) (value : Option Object)
  | function (id : Nat) (parameters : List String) (body : List Stmt) (env : Env)
  | error (message : String)

/-- Modelled from the spec: the object package's Environment (its source is
absent) — a mapping from names to values with an optional enclosing
environment; `Get` checks the local bindings first and then walks outward,
`Set` always writes into the local bindings. -/
inductive Env where
  | mk (store : List (String × Option Object)) (outer : Option Env)

end

/-- A Go `object.Object` interface value, possibly nil. -/
abbrev GoVal := Option Object

/-- Object type tag for integers. -/
def O_INTEGER : String := "INTEGER"

/-- Object type tag for booleans. -/
def O_BOOLEAN : String := "BOOLEAN"

/-- Object type tag for null. -/
def O_NULL : String := "NULL"

/-- Object type tag for the return-value wrapper. -/
def O_RETURN_VALUE : String := "RETURN_VALUE"

/-- Object type tag for functions. -/
def O_FUNCTION : String := "FUNCTION"

/-- Object type tag for errors. -/
def O_ERROR : String := "ERROR"

/-- The `Type()` method of the object variants. -/
def typeOf : Object → String
  | .integer _ => O_INTEGER
  | .boolean _ _ => O_BOOLEAN
  | .null => O_NULL
  | .returnValue _ _ => O_RETURN_VALUE
  | .function _ _ _ _ => O_FUNCTION
  | .error _ => O_ERROR

/-- The process-wide TRUE singleton (`&object.Boolean{Value: true}`), allocation id 0. -/
def TRUE : Object := .boolean 0 true

/-- The process-wide FALSE singleton (`&object.Boolean{Value: false}`), allocation id 1. -/
def FALSE : Object := .boolean 1 false

/-- The process-wide NULL singleton (`&object.Null{}`). -/
def NULL : Object := .null

/-- Lookup in an environment's local store (Go map read). -/
def storeGet : List (String × GoVal) → String → Option GoVal
  | [], _ => none
  | (k, v) :: rest, name => if k = name then some v else storeGet rest name

/-- Write into an environment's local store (Go map write: overwrite or add). -/
def storeSet : List (String × GoVal) → String → GoVal → List (String × GoVal)
  | [], name, v => [(name, v)]
  | (k, w) :: rest, name, v =>
    if k = name then (k, v) :: rest else (k, w) :: storeSet rest name v

/-- `Environment.Get`: local store first, then the outer chain when one is
present; the outer `Option` is the `ok` flag. -/
def envGet : Env → String → Option GoVal
  | .mk store none, name => storeGet store name
  | .mk store (some o), name =>
    match storeGet store name with
    | some v => some v
    | none => envGet o name

/-- `Environment.Set`: always writes into the local store, never a parent. -/
def envSet : Env → String → GoVal → Env
  | .mk store outer, name, v => .mk (storeSet store name v) outer

/-- Two's-complement wrap-around of Go `int64` arithmetic. -/
def wrap64 (n : Int) : Int := (n + 2 ^ 63) % 2 ^ 64 - 2 ^ 63

/-- `isTruthy`: ranges over `FALSY_VALUES = [NULL, FALSE]` comparing each
against the operand by Go interface identity; the NULL singleton is the only
null allocation and FALSE is the boolean allocation with id 1. -/
def isTruthy : GoVal → Bool
  | some .null => false
  | some (.boolean 1 false) => false
  | _ => true

/-- `nativeBooleanToObject`: resolve a host boolean to the corresponding
process-wide singleton. -/
def nativeBooleanToObject (input : Bool) : Object :=
  if input then TRUE else FALSE

/-- `isError`: non-nil and of error type. -/
def isError : GoVal → Bool
  | some o => typeOf o == O_ERROR
  | none => false

/-- Go `==` on two non-nil `object.Object` interface values: same dynamic
type and same pointer.  Ids model pointers for the variants that can reach
this comparison; `integer` and `error` operands never do (integers are
handled by the integer case first, errors are propagated before dispatch),
so those arms are dead code. -/
def identityEq : Object → Object → Bool
  | .null, .null => true
  | .boolean i1 b1, .boolean i2 b2 => i1 == i2 && b1 == b2
  | .returnValue i1 _, .returnValue i2 _ => i1 == i2
  | .function i1 _ _ _, .function i2 _ _ _ => i1 == i2
  | _, _ => false

/-- `ERR_PREFIX_UNKNOWN`: `"unknown operator: %s%s"`. -/
def errPrefixUnknownMsg (op typ : String) : String :=
  "unknown operator: " ++ op ++ typ

/-- `ERR_INFIX_UNKNOWN`: `"unknown operator: %s %s %s"`. -/
def errInfixUnknownMsg (t1 op t2 : String) : String :=
  "unknown operator: " ++ t1 ++ " " ++ op ++ " " ++ t2

/-- `ERR_INFIX_MISMATCH`: `"type mismatch: %s %s %s"`. -/
def errInfixMismatchMsg (t1 op t2 : String) : String :=
  "type mismatch: " ++ t1 ++ " " ++ op ++ " " ++ t2

/-- `ERR_IDENTIFIER_UNKNOWN`: `"unknown identifier: %s"`. -/
def errIdentifierUnknownMsg (name : String) : String :=
  "unknown identifier: " ++ name

/-- The operator string of the dash prefix rule. -/
def dashOp : String := "-"

/-! ## The evaluator (package evaluator)

Helper functions first (they are non-recursive in the source); the result
type `Option Object` marks a Go runtime panic with `none`. -/

/-- `evalBangOperatorExpression`: the singleton opposite of `isTruthy`. -/
def evalBangOperatorExpression (operand : GoVal) : Object :=
  if isTruthy operand then FALSE else TRUE

/-- `evalDashOperatorExpression`: requires an integer operand (else an
unknown-operator error); calling `Type()` on a nil operand aborts. -/
def evalDashOperatorExpression (operand : GoVal) : Option Object :=
  match operand with
  | none => none
  | some o =>
    if typeOf o != O_INTEGER then
      some (.error (errPrefixUnknownMsg dashOp (typeOf o)))
    else
      match o with
      | .integer v => some (.integer (wrap64 (-v)))
      | _ => none

/-- `evalPrefixExpression`: dispatch on the operator; the unknown-operator
arm calls `Type()` on the operand, which aborts when the operand is nil. -/
def evalPrefixExpression (operator : String) (operand : GoVal) : Option Object :=
  match operator with
  | "!" => some (evalBangOperatorExpression operand)
  | "-" => evalDashOperatorExpression operand
  | _ =>
    match operand with
    | none => none
    | some o => some (.error (errPrefixUnknownMsg operator (typeOf o)))

/-- `evalIntegerInfixExpression`: the guarded type assertions would abort on
non-integers (dead under the caller's guard); `/` is Go `int64` division,
truncating toward zero and aborting on a zero divisor. -/
def evalIntegerInfixExpression (operator : String) (left right : Object) : Option Object :=
  match left, right with
  | .integer a, .integer b =>
    match operator with
    | "+" => some (.integer (wrap64 (a + b)))
    | "-" => some (.integer (wrap64 (a - b)))
    | "*" => some (.integer (wrap64 (a * b)))
    | "/" => if b == 0 then none else some (.integer (wrap64 (Int.tdiv a b)))
    | "==" => some (nativeBooleanToObject (a == b))
    | "!=" => some (nativeBooleanToObject (a != b))
    | "<" => some (nativeBooleanToObject (decide (a < b)))
    | ">" => some (nativeBooleanToObject (decide (a > b)))
    | _ => some (.error (errInfixUnknownMsg (typeOf left) operator (typeOf right)))
  | _, _ => none

/-- `evalInfixExpression`: type mismatch first, then the integer rule, then
identity comparison for `==`/`!=`, else unknown operator.  The first case
calls `Type()` on both operands, so a nil operand aborts. -/
def evalInfixExpression (operator : String) (left right : GoVal) : Option Object :=
  match left, right with
  | some l, some r =>
    if typeOf l != typeOf r then
      some (.error (errInfixMismatchMsg (typeOf l) operator (typeOf r)))
    else if typeOf l == O_INTEGER && typeOf r == O_INTEGER then
      evalIntegerInfixExpression operator l r
    else if operator == "==" then
      some (nativeBooleanToObject (identityEq l r))
    else if operator == "!=" then
      some (nativeBooleanToObject (!identityEq l r))
    else
      some (.error (errInfixUnknownMsg (typeOf l) operator (typeOf r)))
  | _, _ => none

/-- Result of one evaluation step: `none` is a host abort; otherwise the Go
result value (possibly nil) with the environment and allocation counter. -/
abbrev EvalOut := Option (GoVal × Env × Nat)

mutual

/-- `Eval` restricted to expression nodes (the source's single `Eval`
type-switch, split by the typed syntax tree).  A `CallExpression` matches no
case of the switch and falls through to the final `return nil`. -/
def evalExpr : Expr → Env → Nat → EvalOut
  | .Identifier name, env, cnt =>
    match envGet env name with
    | none => some (some (.error (errIdentifierUnknownMsg name)), env, cnt)
    | some val => some (val, env, cnt)
  | .IntegerLiteral n, env, cnt => some (some (.integer n), env, cnt)
  | .BooleanLiteral b, env, cnt => some (some (nativeBooleanToObject b), env, cnt)
  | .FunctionLiteral ps body, env, cnt =>
    some (some (.function cnt ps body env), env, cnt + 1)
  | .PrefixExpression op right, env, cnt =>
    match evalExpr right env cnt with
    | none => none
    | some (operand, env1, cnt1) =>
      if isError operand then some (operand, env1, cnt1)
      else
        match evalPrefixExpression op operand with
        | none => none
        | some o => some (some o, env1, cnt1)
  | .InfixExpression op l r, env, cnt =>
    match evalExpr l env cnt with
    | none => none
    | some (lv, env1, cnt1) =>
      if isError lv then some (lv, env1, cnt1)
      else
        match evalExpr r env1 cnt1 with
        | none => none
        | some (rv, env2, cnt2) =>
          if isError rv then some (rv, env2, cnt2)
          else
            match evalInfixExpression op lv rv with
            | none => none
            | some o => some (some o, env2, cnt2)
  | .IfExpression c t e, env, cnt =>
    match evalExpr c env cnt with
    | none => none
    | some (cond, env1, cnt1) =>
      if isError cond then some (cond, env1, cnt1)
      else if isTruthy cond then evalBlockStmts t env1 cnt1 none
      else
        match e with
        | some blk => evalBlockStmts blk env1 cnt1 none
        | none => some (some NULL, env1, cnt1)
  | .CallExpression _ _, env, cnt => some (none, env, cnt)

/-- `Eval` restricted to statement nodes.  A `LetStatement` whose value
field is nil evaluates `Eval(nil, env)`, which matches no case and yields
nil; the let case itself falls out of the switch and returns nil. -/
def evalStmt : Stmt → Env → Nat → EvalOut
  | .LetStatement name value, env, cnt =>
    match
      (match value with
       | some e => evalExpr e env cnt
       | none => some ((none : GoVal), env, cnt)) with
    | none => none
    | some (val, env1, cnt1) =>
      if isError val then some (val, env1, cnt1)
      else some (none, envSet env1 name val, cnt1)
  | .ReturnStatement e, env, cnt =>
    match evalExpr e env cnt with
    | none => none
    | some (val, env1, cnt1) =>
      if isError val then some (val, env1, cnt1)
      else some (some (.returnValue cnt1 val), env1, cnt1 + 1)
  | .ExpressionStatement e, env, cnt => evalExpr e env cnt
  | .BlockStatement stmts, env, cnt => evalBlockStmts stmts env cnt none

/-- `evalProgram`'s loop: `result` starts as the accumulator (nil at the
top); after each statement a `*object.ReturnValue` returns its unwrapped
`.Value` and a `*object.Error` returns as is. -/
def evalProgramStmts : List Stmt → Env → Nat → GoVal → EvalOut
  | [], env, cnt, result => some (result, env, cnt)
  | s :: rest, env, cnt, _ =>
    match evalStmt s env cnt with
    | none => none
    | some (result, env1, cnt1) =>
      match result with
      | some (.returnValue _ v) => some (v, env1, cnt1)
      | some (.error m) => some (some (.error m), env1, cnt1)
      | _ => evalProgramStmts rest env1 cnt1 result

/-- `evalBlockStatement`'s loop: after each statement, a non-nil result of
return-value type or error type is returned still wrapped. -/
def evalBlockStmts : List Stmt → Env → Nat → GoVal → EvalOut
  | [], env, cnt, result => some (result, env, cnt)
  | s :: rest, env, cnt, _ =>
    match evalStmt s env cnt with
    | none => none
    | some (result, env1, cnt1) =>
      match result with
      | some o =>
        if typeOf o == O_RETURN_VALUE || isError (some o) then
          some (some o, env1, cnt1)
        else evalBlockStmts rest env1 cnt1 (some o)
      | none => evalBlockStmts rest env1 cnt1 none

end

/-- `evalProgram`: the top-level Program boundary. -/
def evalProgram (statements : List Stmt) (env : Env) (cnt : Nat) : EvalOut :=
  evalProgramStmts statements env cnt none

/-- `evalBlockStatement`: the nested Block boundary. -/
def evalBlockStatement (statements : List Stmt) (env : Env) (cnt : Nat) : EvalOut :=
  evalBlockStmts statements env cnt none

/-- An empty top-level environment. -/
def emptyEnv : Env := .mk [] none

/-! ## The parser (package parser, file part_000)

The token and lexer packages are not part of the shown sources: a token is a
`(kind, literal)` pair and the lexer yields EOF markers forever once the
input is exhausted (spec §2), so the parser is modelled directly over a
finite token list.  The shown parser writes its diagnostics to a standard
error log (`parseErrorLog`); those written lines are modelled as an output
list alongside each result.  The two token-consuming loops carry a fuel
argument bounded below by the remaining stream length plus two, which the
loops (each consuming one token per step until the EOF marker) never
exhaust; the fuel-out arm returns the current state unchanged. -/

/-- A lexical token: kind and literal text. -/
structure Token where
  type : String
  literal : String

/-- Token kind `token.LET`. -/
def T_LET : String := "LET"

/-- Token kind `token.IDENTIFIER`. -/
def T_IDENTIFIER : String := "IDENTIFIER"

/-- Token kind `token.ASSIGN`. -/
def T_ASSIGN : String := "ASSIGN"

/-- Token kind `token.SEMICOLON`. -/
def T_SEMICOLON : String := "SEMICOLON"

/-- Token kind `token.EOF`. -/
def T_EOF : String := "EOF"

/-- Token kind `token.INTEGER`. -/
def T_INTEGER : String := "INTEGER"

/-- Token kind `token.RETURN`. -/
def T_RETURN : String := "RETURN"

/-- The EOF marker the lexer yields forever at the end of the input. -/
def eofToken : Token := ⟨T_EOF, ""⟩

/-- The zero value of the Token struct, before `New` reads the first tokens. -/
def zeroToken : Token := ⟨"", ""⟩

/-- Parser state: the two-token window plus the not-yet-read tokens. -/
structure Parser where
  currentToken : Token
  peekToken : Token
  rest : List Token

/-- `nextToken`: shift peek into current and pull the next token. -/
def nextToken (p : Parser) : Parser :=
  ⟨p.peekToken, p.rest.headD eofToken, p.rest.tail⟩

/-- `New`: construct a parser and read two tokens. -/
def newParser (tokens : List Token) : Parser :=
  nextToken (nextToken ⟨zeroToken, zeroToken, tokens⟩)

/-- The line `expectPeek` writes to the error log
(`"unexpected token of type %q: %q, expected token of type %q"`). -/
def expectPeekMsg (found : Token) (wanted : String) : String :=
  "unexpected token of type " ++ ("\"" ++ found.type ++ "\"") ++ ": " ++
    ("\"" ++ found.literal ++ "\"") ++ ", expected token of type " ++
    ("\"" ++ wanted ++ "\"")

/-- `expectPeek`: on a match advance and succeed; otherwise leave the tokens
as is, write a line to the error log, and fail. -/
def expectPeek (p : Parser) (t : String) : Bool × Parser × List String :=
  if p.peekToken.type = t then (true, nextToken p, [])
  else (false, p, [expectPeekMsg p.peekToken t])

/-- The skip loop of `parseLetStatement`: advance until the current token is
a semicolon; reaching EOF abandons the statement. -/
def skipToSemicolon : Nat → Parser → Bool × Parser
  | 0, p => (false, p)
  | fuel + 1, p =>
    if p.currentToken.type = T_SEMICOLON then (true, p)
    else if p.currentToken.type = T_EOF then (false, p)
    else skipToSemicolon fuel (nextToken p)

/-- `parseLetStatement`: expect an identifier, then an assignment token,
then skip everything up to the semicolon.  The statement's value expression
is never parsed — the returned let statement carries no value (`none`). -/
def parseLetStatement (p : Parser) : Option Stmt × Parser × List String :=
  match expectPeek p T_IDENTIFIER with
  | (false, p1, msgs) => (none, p1, msgs)
  | (true, p1, _) =>
    let name := p1.currentToken.literal
    match expectPeek p1 T_ASSIGN with
    | (false, p2, msgs) => (none, p2, msgs)
    | (true, p2, _) =>
      match skipToSemicolon (p2.rest.length + 2) p2 with
      | (false, p3) => (none, p3, [])
      | (true, p3) => (some (.LetStatement name none), p3, [])

/-- `parseStatement`: dispatch on the current token kind.  Only `token.LET`
has a case; every other kind falls through to `return nil`. -/
def parseStatement (p : Parser) : Option Stmt × Parser × List String :=
  if p.currentToken.type = T_LET then parseLetStatement p
  else (none, p, [])

/-- The `ParseProgram` loop: until the current token is EOF, parse a
statement, append it when non-nil, and advance. -/
def parseProgramLoop : Nat → Parser → List Stmt → List String → List Stmt × List String
  | 0, _, acc, msgs => (acc, msgs)
  | fuel + 1, p, acc, msgs =>
    if p.currentToken.type = T_EOF then (acc, msgs)
    else
      match parseStatement p with
      | (stmtOpt, p1, newMsgs) =>
        let acc1 := match stmtOpt with
          | some s => acc ++ [s]
          | none => acc
        parseProgramLoop fuel (nextToken p1) acc1 (msgs ++ newMsgs)

/-- `ParseProgram` over a lexed token list: the resulting program's
statements together with the lines written to the error log. -/
def parseProgram (tokens : List Token) : List Stmt × List String :=
  parseProgramLoop (tokens.length + 2) (newParser tokens) [] []

/-! ## Syntax-tree textual reconstruction

Modelled from the spec: the ast package's `String()` rendering is not part
of the shown sources; §6 pins the canonical form — infix nodes render as
`(<left> <operator> <right>)`, prefix nodes as `(<operator><operand>)`, each
top-level statement is suffixed with `;` and the statements are concatenated
without separators. -/

mutual

/-- Modelled from the spec: render an expression in the canonical
fully-parenthesized form of §6. -/
def renderExpr : Expr → String
  | .Identifier v => v
  | .IntegerLiteral n => toString n
  | .BooleanLiteral b => cond b "true" "false"
  | .PrefixExpression op r => "(" ++ op ++ renderExpr r ++ ")"
  | .InfixExpression op l r =>
    "(" ++ renderExpr l ++ " " ++ op ++ " " ++ renderExpr r ++ ")"
  | .IfExpression c t e =>
    "if" ++ renderExpr c ++ " " ++ renderStmts t ++
      (match e with
       | some blk => "else " ++ renderStmts blk
       | none => "")
  | .FunctionLiteral ps body =>
    "fn" ++ "(" ++ String.intercalate ", " ps ++ ") " ++ renderStmts body
  | .CallExpression callee args =>
    renderExpr callee ++ "(" ++ String.intercalate ", " (renderExprList args) ++ ")"

/-- Modelled from the spec: render each expression of a list. -/
def renderExprList : List Expr → List String
  | [] => []
  | e :: rest => renderExpr e :: renderExprList rest

/-- Modelled from the spec: render a statement (without the top-level
semicolon suffix). -/
def renderStmt : Stmt → String
  | .LetStatement name v =>
    "let " ++ name ++ " = " ++
      (match v with
       | some e => renderExpr e
       | none => "")
  | .ReturnStatement e => "return " ++ renderExpr e
  | .ExpressionStatement e => renderExpr e
  | .BlockStatement stmts => renderStmts stmts

/-- Modelled from the spec: render a statement list by concatenation. -/
def renderStmts : List Stmt → String
  | [] => ""
  | s :: rest => renderStmt s ++ renderStmts rest

end

/-- Modelled from the spec: render a whole program — each top-level
statement suffixed with `;`, concatenated without separators. -/
def renderProgram : List Stmt → String
  | [] => ""
  | s :: rest => renderStmt s ++ ";" ++ renderProgram rest

/-! ## Value and environment predicates

`okObj` captures the boolean-singleton discipline: every boolean object in
sight is one of the two process-wide singletons (TRUE with id 0, FALSE with
id 1), recursively through return-value wrappers and the environments
captured by function values.  `envAllSome` says every binding of an
environment chain holds a non-nil value.  `valExpr`/`valStmt` carve out the
syntax-tree fragment on which evaluation provably never aborts: no division
operator, no call expression, every let statement carries a value, and every
block in value position is nonempty and ends in a value-producing
statement. -/

mutual

/-- Boolean objects are the two singletons, recursively. -/
def okObj : Object → Bool
  | .boolean id b => (id == 0 && b == true) || (id == 1 && b == false)
  | .returnValue _ v => okVal v
  | .function _ _ _ e => okEnv e
  | .integer _ => true
  | .null => true
  | .error _ => true

/-- `okObj` lifted to possibly-nil interface values. -/
def okVal : GoVal → Bool
  | none => true
  | some o => okObj o

/-- `okObj` over every value of an environment chain. -/
def okEnv : Env → Bool
  | .mk store outer =>
    okStore store &&
      (match outer with
       | some o => okEnv o
       | none => true)

/-- `okObj` over every value of a local store. -/
def okStore : List (String × GoVal) → Bool
  | [] => true
  | (_, v) :: rest => okVal v && okStore rest

end

/-- Every binding of a local store holds a non-nil value. -/
def storeAllSome : List (String × GoVal) → Bool
  | [] => true
  | (_, v) :: rest => v.isSome && storeAllSome rest

/-- Every binding of an environment chain holds a non-nil value. -/
def envAllSome : Env → Bool
  | .mk store outer =>
    storeAllSome store &&
      (match outer with
       | some o => envAllSome o
       | none => true)

mutual

/-- Expressions of the abort-free fragment: no division operator, no call
expression, and every block in value position is a value block. -/
def valExpr : Expr → Bool
  | .Identifier _ => true
  | .IntegerLiteral _ => true
  | .BooleanLiteral _ => true
  | .FunctionLiteral _ _ => true
  | .PrefixExpression _ r => valExpr r
  | .InfixExpression op l r => op != "/" && valExpr l && valExpr r
  | .IfExpression c t e =>
    valExpr c && valBlock t &&
      (match e with
       | some blk => valBlock blk
       | none => true)
  | .CallExpression _ _ => false

/-- Statements of the abort-free fragment; a let statement must carry a
value expression. -/
def valStmt : Stmt → Bool
  | .LetStatement _ v =>
    match v with
    | some e => valExpr e
    | none => false
  | .ReturnStatement e => valExpr e
  | .ExpressionStatement e => valExpr e
  | .BlockStatement stmts => valStmts stmts

/-- Every statement of the list is in the abort-free fragment. -/
def valStmts : List Stmt → Bool
  | [] => true
  | s :: rest => valStmt s && valStmts rest

/-- A block in value position: nonempty, abort-free, and its last statement
produces a non-nil value. -/
def valBlock : List Stmt → Bool
  | [] => false
  | [s] => valStmt s && lastSome s
  | s :: rest => valStmt s && valBlock rest

/-- Statements that always produce a non-nil value when they complete
normally (everything except a let statement). -/
def lastSome : Stmt → Bool
  | .LetStatement _ _ => false
  | .ReturnStatement _ => true
  | .ExpressionStatement _ => true
  | .BlockStatement stmts => valBlock stmts

end

/-- A statement list runs normally when every statement completes without
producing a return-value or error result: the derived condition under which
the `evalProgram` loop reaches the statements after it.  The result is the
environment and counter after the list. -/
def runNormally : List Stmt → Env → Nat → Option (Env × Nat)
  | [], env, cnt => some (env, cnt)
  | s :: rest, env, cnt =>
    match evalStmt s env cnt with
    | none => none
    | some (some (.returnValue _ _), _, _) => none
    | some (some (.error _), _, _) => none
    | some (_, env1, cnt1) => runNormally rest env1 cnt1

/-! ## Concrete token streams for the parser claims -/

/-- The lexed tokens of `let x = 5;`. -/
def letX5Tokens : List Token :=
  [⟨T_LET, "let"⟩, ⟨T_IDENTIFIER, "x"⟩, ⟨T_ASSIGN, "="⟩, ⟨T_INTEGER, "5"⟩,
   ⟨T_SEMICOLON, ";"⟩, ⟨T_EOF, ""⟩]

/-- The lexed tokens of `a + b * c + d / e - f`. -/
def precedenceTokens : List Token :=
  [⟨T_IDENTIFIER, "a"⟩, ⟨"PLUS", "+"⟩, ⟨T_IDENTIFIER, "b"⟩, ⟨"ASTERISK", "*"⟩,
   ⟨T_IDENTIFIER, "c"⟩, ⟨"PLUS", "+"⟩, ⟨T_IDENTIFIER, "d"⟩, ⟨"SLASH", "/"⟩,
   ⟨T_IDENTIFIER, "e"⟩, ⟨"MINUS", "-"⟩, ⟨T_IDENTIFIER, "f"⟩, ⟨T_EOF, ""⟩]

/-- The lexed tokens of `let x 5; let y = 7;` (the first let misses `=`). -/
def letMissingAssignTokens : List Token :=
  [⟨T_LET, "let"⟩, ⟨T_IDENTIFIER, "x"⟩, ⟨T_INTEGER, "5"⟩, ⟨T_SEMICOLON, ";"⟩,
   ⟨T_LET, "let"⟩, ⟨T_IDENTIFIER, "y"⟩, ⟨T_ASSIGN, "="⟩, ⟨T_INTEGER, "7"⟩,
   ⟨T_SEMICOLON, ";"⟩, ⟨T_EOF, ""⟩]

/-- The lexed tokens of `return 5;`. -/
def return5Tokens : List Token :=
  [⟨T_RETURN, "return"⟩, ⟨T_INTEGER, "5"⟩, ⟨T_SEMICOLON, ";"⟩, ⟨T_EOF, ""⟩]

/-- The lexed tokens of `foobar;`. -/
def foobarTokens : List Token :=
  [⟨T_IDENTIFIER, "foobar"⟩, ⟨T_SEMICOLON, ";"⟩, ⟨T_EOF, ""⟩]

/-! ## Helper lemmas about stores, environments and the non-recursive
evaluator helpers -/

theorem storeGet_ok (store : List (String × GoVal)) (name : String) (v : GoVal)
    (h : okStore store = true) (hg : storeGet store name = some v) : okVal v = true := by
  induction store with
  | nil => simp [storeGet] at hg
  | cons kv rest ih =>
    obtain ⟨k, w⟩ := kv
    simp only [okStore, Bool.and_eq_true] at h
    simp only [storeGet] at hg
    split at hg
    · cases hg; exact h.1
    · exact ih h.2 hg

theorem envGet_ok : ∀ (env : Env) (name : String) (v : GoVal),
    okEnv env = true → envGet env name = some v → okVal v = true
  | .mk store outer, name, v, h, hg => by
    rw [okEnv.eq_def] at h
    simp only [Bool.and_eq_true] at h
    cases outer with
    | none =>
      simp only [envGet] at hg
      exact storeGet_ok store name v h.1 hg
    | some o =>
      simp only [envGet] at hg
      rcases hs : storeGet store name with _ | w <;> rw [hs] at hg
      · exact envGet_ok o name v h.2 hg
      · cases hg
        exact storeGet_ok store name _ h.1 hs

theorem storeGet_allSome (store : List (String × GoVal)) (name : String) (v : GoVal)
    (h : storeAllSome store = true) (hg : storeGet store name = some v) : v.isSome = true := by
  induction store with
  | nil => simp [storeGet] at hg
  | cons kv rest ih =>
    obtain ⟨k, w⟩ := kv
    simp only [storeAllSome, Bool.and_eq_true] at h
    simp only [storeGet] at hg
    split at hg
    · cases hg; exact h.1
    · exact ih h.2 hg

theorem envGet_allSome : ∀ (env : Env) (name : String) (v : GoVal),
    envAllSome env = true → envGet env name = some v → v.isSome = true
  | .mk store outer, name, v, h, hg => by
    rw [envAllSome.eq_def] at h
    simp only [Bool.and_eq_true] at h
    cases outer with
    | none =>
      simp only [envGet] at hg
      exact storeGet_allSome store name v h.1 hg
    | some o =>
      simp only [envGet] at hg
      rcases hs : storeGet store name with _ | w <;> rw [hs] at hg
      · exact envGet_allSome o name v h.2 hg
      · cases hg
        exact storeGet_allSome store name _ h.1 hs

theorem storeSet_ok (store : List (String × GoVal)) (name : String) (v : GoVal)
    (h : okStore store = true) (hv : okVal v = true) :
    okStore (storeSet store name v) = true := by
  induction store with
  | nil => simp [storeSet, okStore, hv]
  | cons kv rest ih =>
    obtain ⟨k, w⟩ := kv
    simp only [okStore, Bool.and_eq_true] at h
    simp only [storeSet]
    split
    · simp [okStore, hv, h.2]
    · simp [okStore, h.1, ih h.2]

theorem envSet_ok (env : Env) (name : String) (v : GoVal)
    (h : okEnv env = true) (hv : okVal v = true) : okEnv (envSet env name v) = true := by
  obtain ⟨store, outer⟩ := env
  rw [okEnv.eq_def] at h
  simp only [Bool.and_eq_true] at h
  show okEnv (Env.mk (storeSet store name v) outer) = true
  rw [okEnv.eq_def]
  simp only [Bool.and_eq_true]
  exact ⟨storeSet_ok store name v h.1 hv, h.2⟩

theorem storeSet_allSome (store : List (String × GoVal)) (name : String) (v : GoVal)
    (h : storeAllSome store = true) (hv : v.isSome = true) :
    storeAllSome (storeSet store name v) = true := by
  induction store with
  | nil => simp [storeSet, storeAllSome, hv]
  | cons kv rest ih =>
    obtain ⟨k, w⟩ := kv
    simp only [storeAllSome, Bool.and_eq_true] at h
    simp only [storeSet]
    split
    · simp [storeAllSome, hv, h.2]
    · simp [storeAllSome, h.1, ih h.2]

theorem envSet_allSome (env : Env) (name : String) (v : GoVal)
    (h : envAllSome env = true) (hv : v.isSome = true) :
    envAllSome (envSet env name v) = true := by
  obtain ⟨store, outer⟩ := env
  rw [envAllSome.eq_def] at h
  simp only [Bool.and_eq_true] at h
  show envAllSome (Env.mk (storeSet store name v) outer) = true
  rw [envAllSome.eq_def]
  simp only [Bool.and_eq_true]
  exact ⟨storeSet_allSome store name v h.1 hv, h.2⟩

theorem okObj_nativeBooleanToObject (b : Bool) : okObj (nativeBooleanToObject b) = true := by
  cases b <;> rfl

theorem evalDashOperatorExpression_ok (operand : GoVal) (o : Object)
    (h : evalDashOperatorExpression operand = some o) : okObj o = true := by
  simp only [evalDashOperatorExpression] at h
  split at h
  · exact absurd h (by simp)
  · split at h
    · cases h; rfl
    · split at h
      · cases h; rfl
      · exact absurd h (by simp)

theorem evalPrefixExpression_ok (op : String) (operand : GoVal) (o : Object)
    (h : evalPrefixExpression op operand = some o) : okObj o = true := by
  simp only [evalPrefixExpression] at h
  split at h
  · cases h
    simp only [evalBangOperatorExpression]
    split <;> rfl
  · exact evalDashOperatorExpression_ok operand o h
  · split at h
    · exact absurd h (by simp)
    · cases h; rfl

theorem evalIntegerInfixExpression_ok (op : String) (l r o : Object)
    (h : evalIntegerInfixExpression op l r = some o) : okObj o = true := by
  simp only [evalIntegerInfixExpression] at h
  split at h
  case h_2 => exact absurd h (by simp)
  case h_1 a b =>
    split at h
    all_goals try split at h
    all_goals
      first
      | (cases h; first | rfl | apply okObj_nativeBooleanToObject)
      | exact absurd h (by simp)

theorem evalInfixExpression_ok (op : String) (left right : GoVal) (o : Object)
    (h : evalInfixExpression op left right = some o) : okObj o = true := by
  simp only [evalInfixExpression] at h
  split at h
  case h_2 => exact absurd h (by simp)
  case h_1 l r =>
    split at h
    · cases h; rfl
    · split at h
      · exact evalIntegerInfixExpression_ok op l r o h
      · split at h
        · cases h; apply okObj_nativeBooleanToObject
        · split at h
          · cases h; apply okObj_nativeBooleanToObject
          · cases h; rfl

theorem typeOf_eq_integer (o : Object) (h : typeOf o = O_INTEGER) : ∃ v, o = .integer v := by
  cases o <;> simp_all [typeOf, O_INTEGER, O_BOOLEAN, O_NULL, O_RETURN_VALUE, O_FUNCTION, O_ERROR]

theorem evalDashOperatorExpression_total (o : Object) :
    ∃ o2, evalDashOperatorExpression (some o) = some o2 := by
  simp only [evalDashOperatorExpression]
  split
  · exact ⟨_, rfl⟩
  · rename_i hne
    rcases typeOf_eq_integer o (by simpa [bne_iff_ne] using hne) with ⟨v, rfl⟩
    exact ⟨_, rfl⟩

theorem evalPrefixExpression_total (op : String) (o : Object) :
    ∃ o2, evalPrefixExpression op (some o) = some o2 := by
  simp only [evalPrefixExpression]
  split
  · exact ⟨_, rfl⟩
  · exact evalDashOperatorExpression_total o
  · exact ⟨_, rfl⟩

theorem evalIntegerInfixExpression_total (op : String) (a b : Int) (hop : op ≠ "/") :
    ∃ o, evalIntegerInfixExpression op (.integer a) (.integer b) = some o := by
  simp only [evalIntegerInfixExpression]
  split
  any_goals exact ⟨_, rfl⟩
  exact absurd rfl hop

theorem evalInfixExpression_total (op : String) (l r : Object) (hop : op ≠ "/") :
    ∃ o, evalInfixExpression op (some l) (some r) = some o := by
  simp only [evalInfixExpression]
  split
  · exact ⟨_, rfl⟩
  · split
    · rename_i hint
      simp only [Bool.and_eq_true, beq_iff_eq] at hint
      rcases typeOf_eq_integer l hint.1 with ⟨a, rfl⟩
      rcases typeOf_eq_integer r hint.2 with ⟨b, rfl⟩
      exact evalIntegerInfixExpression_total op a b hop
    · split
      · exact ⟨_, rfl⟩
      · split
        · exact ⟨_, rfl⟩
        · exact ⟨_, rfl⟩

/-! ## Unfolding equations of the evaluator

The mutual evaluator is compiled structurally, so each defining equation
holds by `rfl`; they are stated here once and used as rewrite rules. -/

theorem evalExpr_eq_ident (name : String) (env : Env) (cnt : Nat) :
    evalExpr (.Identifier name) env cnt =
      (match envGet env name with
       | none => some (some (.error (errIdentifierUnknownMsg name)), env, cnt)
       | some val => some (val, env, cnt)) := rfl

theorem evalExpr_eq_int (n : Int) (env : Env) (cnt : Nat) :
    evalExpr (.IntegerLiteral n) env cnt = some (some (.integer n), env, cnt) := rfl

theorem evalExpr_eq_bool (b : Bool) (env : Env) (cnt : Nat) :
    evalExpr (.BooleanLiteral b) env cnt = some (some (nativeBooleanToObject b), env, cnt) := rfl

theorem evalExpr_eq_fn (ps : List String) (body : List Stmt) (env : Env) (cnt : Nat) :
    evalExpr (.FunctionLiteral ps body) env cnt =
      some (some (.function cnt ps body env), env, cnt + 1) := rfl

theorem evalExpr_eq_pre (op : String) (r : Expr) (env : Env) (cnt : Nat) :
    evalExpr (.PrefixExpression op r) env cnt =
      (match evalExpr r env cnt with
       | none => none
       | some (operand, env1, cnt1) =>
         if isError operand then some (operand, env1, cnt1)
         else
           match evalPrefixExpression op operand with
           | none => none
           | some o => some (some o, env1, cnt1)) := rfl

theorem evalExpr_eq_inf (op : String) (l r : Expr) (env : Env) (cnt : Nat) :
    evalExpr (.InfixExpression op l r) env cnt =
      (match evalExpr l env cnt with
       | none => none
       | some (lv, env1, cnt1) =>
         if isError lv then some (lv, env1, cnt1)
         else
           match evalExpr r env1 cnt1 with
           | none => none
           | some (rv, env2, cnt2) =>
             if isError rv then some (rv, env2, cnt2)
             else
               match evalInfixExpression op lv rv with
               | none => none
               | some o => some (some o, env2, cnt2)) := rfl

theorem evalExpr_eq_ifNone (c : Expr) (t : List Stmt) (env : Env) (cnt : Nat) :
    evalExpr (.IfExpression c t none) env cnt =
      (match evalExpr c env cnt with
       | none => none
       | some (cond, env1, cnt1) =>
         if isError cond then some (cond, env1, cnt1)
         else if isTruthy cond then evalBlockStmts t env1 cnt1 none
         else some (some NULL, env1, cnt1)) := rfl

theorem evalExpr_eq_ifSome (c : Expr) (t blk : List Stmt) (env : Env) (cnt : Nat) :
    evalExpr (.IfExpression c t (some blk)) env cnt =
      (match evalExpr c env cnt with
       | none => none
       | some (cond, env1, cnt1) =>
         if isError cond then some (cond, env1, cnt1)
         else if isTruthy cond then evalBlockStmts t env1 cnt1 none
         else evalBlockStmts blk env1 cnt1 none) := rfl

theorem evalExpr_eq_call (callee : Expr) (args : List Expr) (env : Env) (cnt : Nat) :
    evalExpr (.CallExpression callee args) env cnt = some (none, env, cnt) := rfl

theorem evalStmt_eq_letNone (name : String) (env : Env) (cnt : Nat) :
    evalStmt (.LetStatement name none) env cnt =
      some (none, envSet env name none, cnt) := rfl

theorem evalStmt_eq_letSome (name : String) (e : Expr) (env : Env) (cnt : Nat) :
    evalStmt (.LetStatement name (some e)) env cnt =
      (match evalExpr e env cnt with
       | none => none
       | some (val, env1, cnt1) =>
         if isError val then some (val, env1, cnt1)
         else some (none, envSet env1 name val, cnt1)) := rfl

theorem evalStmt_eq_ret (e : Expr) (env : Env) (cnt : Nat) :
    evalStmt (.ReturnStatement e) env cnt =
      (match evalExpr e env cnt with
       | none => none
       | some (val, env1, cnt1) =>
         if isError val then some (val, env1, cnt1)
         else some (some (.returnValue cnt1 val), env1, cnt1 + 1)) := rfl

theorem evalStmt_eq_expr (e : Expr) (env : Env) (cnt : Nat) :
    evalStmt (.ExpressionStatement e) env cnt = evalExpr e env cnt := rfl

theorem evalStmt_eq_block (stmts : List Stmt) (env : Env) (cnt : Nat) :
    evalStmt (.BlockStatement stmts) env cnt = evalBlockStmts stmts env cnt none := rfl

theorem evalProgramStmts_eq_nil (env : Env) (cnt : Nat) (acc : GoVal) :
    evalProgramStmts [] env cnt acc = some (acc, env, cnt) := rfl

theorem evalProgramStmts_eq_cons (s : Stmt) (rest : List Stmt) (env : Env) (cnt : Nat) (acc : GoVal) :
    evalProgramStmts (s :: rest) env cnt acc =
      (match evalStmt s env cnt with
       | none => none
       | some (result, env1, cnt1) =>
         match result with
         | some (.returnValue _ v) => some (v, env1, cnt1)
         | some (.error m) => some (some (.error m), env1, cnt1)
         | _ => evalProgramStmts rest env1 cnt1 result) := rfl

theorem evalBlockStmts_eq_nil (env : Env) (cnt : Nat) (acc : GoVal) :
    evalBlockStmts [] env cnt acc = some (acc, env, cnt) := rfl

theorem evalBlockStmts_eq_cons (s : Stmt) (rest : List Stmt) (env : Env) (cnt : Nat) (acc : GoVal) :
    evalBlockStmts (s :: rest) env cnt acc =
      (match evalStmt s env cnt with
       | none => none
       | some (result, env1, cnt1) =>
         match result with
         | some o =>
           if typeOf o == O_RETURN_VALUE || isError (some o) then
             some (some o, env1, cnt1)
           else evalBlockStmts rest env1 cnt1 (some o)
         | none => evalBlockStmts rest env1 cnt1 none) := rfl

/-! ## Preservation of the boolean-singleton discipline

Every value the evaluator produces, and every environment it leaves behind,
satisfies `okObj`: the only boolean objects around are the TRUE and FALSE
singletons. -/

mutual

theorem evalExpr_ok : ∀ (e : Expr) (env : Env) (cnt : Nat) (v : GoVal) (env1 : Env) (cnt1 : Nat),
    okEnv env = true → evalExpr e env cnt = some (v, env1, cnt1) →
    okVal v = true ∧ okEnv env1 = true
  | .Identifier name, env, cnt, v, env1, cnt1, henv, h => by
    rw [evalExpr_eq_ident] at h
    split at h
    · simp only [Option.some.injEq, Prod.mk.injEq] at h
      obtain ⟨rfl, rfl, rfl⟩ := h
      exact ⟨rfl, henv⟩
    · rename_i w hg
      simp only [Option.some.injEq, Prod.mk.injEq] at h
      obtain ⟨rfl, rfl, rfl⟩ := h
      exact ⟨envGet_ok env name w henv hg, henv⟩
  | .IntegerLiteral n, env, cnt, v, env1, cnt1, henv, h => by
    rw [evalExpr_eq_int] at h
    simp only [Option.some.injEq, Prod.mk.injEq] at h
    obtain ⟨rfl, rfl, rfl⟩ := h
    exact ⟨rfl, henv⟩
  | .BooleanLiteral b, env, cnt, v, env1, cnt1, henv, h => by
    rw [evalExpr_eq_bool] at h
    simp only [Option.some.injEq, Prod.mk.injEq] at h
    obtain ⟨rfl, rfl, rfl⟩ := h
    exact ⟨okObj_nativeBooleanToObject b, henv⟩
  | .FunctionLiteral ps body, env, cnt, v, env1, cnt1, henv, h => by
    rw [evalExpr_eq_fn] at h
    simp only [Option.some.injEq, Prod.mk.injEq] at h
    obtain ⟨rfl, rfl, rfl⟩ := h
    exact ⟨henv, henv⟩
  | .PrefixExpression op r, env, cnt, v, env1, cnt1, henv, h => by
    rw [evalExpr_eq_pre] at h
    split at h
    · exact Option.noConfusion h
    · rename_i operand env2 cnt2 heq
      obtain ⟨hov, henv2⟩ := evalExpr_ok r env cnt operand env2 cnt2 henv heq
      split at h
      · simp only [Option.some.injEq, Prod.mk.injEq] at h
        obtain ⟨rfl, rfl, rfl⟩ := h
        exact ⟨hov, henv2⟩
      · split at h
        · exact Option.noConfusion h
        · rename_i o hp
          simp only [Option.some.injEq, Prod.mk.injEq] at h
          obtain ⟨rfl, rfl, rfl⟩ := h
          exact ⟨evalPrefixExpression_ok op operand o hp, henv2⟩
  | .InfixExpression op l r, env, cnt, v, env1, cnt1, henv, h => by
    rw [evalExpr_eq_inf] at h
    split at h
    · exact Option.noConfusion h
    · rename_i lv env2 cnt2 heql
      obtain ⟨hlv, henv2⟩ := evalExpr_ok l env cnt lv env2 cnt2 henv heql
      split at h
      · simp only [Option.some.injEq, Prod.mk.injEq] at h
        obtain ⟨rfl, rfl, rfl⟩ := h
        exact ⟨hlv, henv2⟩
      · split at h
        · exact Option.noConfusion h
        · rename_i rv env3 cnt3 heqr
          obtain ⟨hrv, henv3⟩ := evalExpr_ok r env2 cnt2 rv env3 cnt3 henv2 heqr
          split at h
          · simp only [Option.some.injEq, Prod.mk.injEq] at h
            obtain ⟨rfl, rfl, rfl⟩ := h
            exact ⟨hrv, henv3⟩
          · split at h
            · exact Option.noConfusion h
            · rename_i o hi
              simp only [Option.some.injEq, Prod.mk.injEq] at h
              obtain ⟨rfl, rfl, rfl⟩ := h
              exact ⟨evalInfixExpression_ok op lv rv o hi, henv3⟩
  | .IfExpression c t none, env, cnt, v, env1, cnt1, henv, h => by
    rw [evalExpr_eq_ifNone] at h
    split at h
    · exact Option.noConfusion h
    · rename_i cond env2 cnt2 heqc
      obtain ⟨hcv, henv2⟩ := evalExpr_ok c env cnt cond env2 cnt2 henv heqc
      split at h
      · simp only [Option.some.injEq, Prod.mk.injEq] at h
        obtain ⟨rfl, rfl, rfl⟩ := h
        exact ⟨hcv, henv2⟩
      · split at h
        · exact evalBlockStmts_ok t env2 cnt2 none v env1 cnt1 henv2 rfl h
        · simp only [Option.some.injEq, Prod.mk.injEq] at h
          obtain ⟨rfl, rfl, rfl⟩ := h
          exact ⟨rfl, henv2⟩
  | .IfExpression c t (some blk), env, cnt, v, env1, cnt1, henv, h => by
    rw [evalExpr_eq_ifSome] at h
    split at h
    · exact Option.noConfusion h
    · rename_i cond env2 cnt2 heqc
      obtain ⟨hcv, henv2⟩ := evalExpr_ok c env cnt cond env2 cnt2 henv heqc
      split at h
      · simp only [Option.some.injEq, Prod.mk.injEq] at h
        obtain ⟨rfl, rfl, rfl⟩ := h
        exact ⟨hcv, henv2⟩
      · split at h
        · exact evalBlockStmts_ok t env2 cnt2 none v env1 cnt1 henv2 rfl h
        · exact evalBlockStmts_ok blk env2 cnt2 none v env1 cnt1 henv2 rfl h
  | .CallExpression callee args, env, cnt, v, env1, cnt1, henv, h => by
    rw [evalExpr_eq_call] at h
    simp only [Option.some.injEq, Prod.mk.injEq] at h
    obtain ⟨rfl, rfl, rfl⟩ := h
    exact ⟨rfl, henv⟩

theorem evalStmt_ok : ∀ (s : Stmt) (env : Env) (cnt : Nat) (v : GoVal) (env1 : Env) (cnt1 : Nat),
    okEnv env = true → evalStmt s env cnt = some (v, env1, cnt1) →
    okVal v = true ∧ okEnv env1 = true
  | .LetStatement name none, env, cnt, v, env1, cnt1, henv, h => by
    rw [evalStmt_eq_letNone] at h
    simp only [Option.some.injEq, Prod.mk.injEq] at h
    obtain ⟨rfl, rfl, rfl⟩ := h
    exact ⟨rfl, envSet_ok env name none henv rfl⟩
  | .LetStatement name (some e), env, cnt, v, env1, cnt1, henv, h => by
    rw [evalStmt_eq_letSome] at h
    split at h
    · exact Option.noConfusion h
    · rename_i val env2 cnt2 heq
      obtain ⟨hval, henv2⟩ := evalExpr_ok e env cnt val env2 cnt2 henv heq
      split at h
      · simp only [Option.some.injEq, Prod.mk.injEq] at h
        obtain ⟨rfl, rfl, rfl⟩ := h
        exact ⟨hval, henv2⟩
      · simp only [Option.some.injEq, Prod.mk.injEq] at h
        obtain ⟨rfl, rfl, rfl⟩ := h
        exact ⟨rfl, envSet_ok env2 name val henv2 hval⟩
  | .ReturnStatement e, env, cnt, v, env1, cnt1, henv, h => by
    rw [evalStmt_eq_ret] at h
    split at h
    · exact Option.noConfusion h
    · rename_i val env2 cnt2 heq
      obtain ⟨hval, henv2⟩ := evalExpr_ok e env cnt val env2 cnt2 henv heq
      split at h
      · simp only [Option.some.injEq, Prod.mk.injEq] at h
        obtain ⟨rfl, rfl, rfl⟩ := h
        exact ⟨hval, henv2⟩
      · simp only [Option.some.injEq, Prod.mk.injEq] at h
        obtain ⟨rfl, rfl, rfl⟩ := h
        exact ⟨hval, henv2⟩
  | .ExpressionStatement e, env, cnt, v, env1, cnt1, henv, h => by
    rw [evalStmt_eq_expr] at h
    exact evalExpr_ok e env cnt v env1 cnt1 henv h
  | .BlockStatement stmts, env, cnt, v, env1, cnt1, henv, h => by
    rw [evalStmt_eq_block] at h
    exact evalBlockStmts_ok stmts env cnt none v env1 cnt1 henv rfl h

theorem evalProgramStmts_ok : ∀ (stmts : List Stmt) (env : Env) (cnt : Nat) (acc v : GoVal)
    (env1 : Env) (cnt1 : Nat),
    okEnv env = true → okVal acc = true →
    evalProgramStmts stmts env cnt acc = some (v, env1, cnt1) →
    okVal v = true ∧ okEnv env1 = true
  | [], env, cnt, acc, v, env1, cnt1, henv, hacc, h => by
    rw [evalProgramStmts_eq_nil] at h
    simp only [Option.some.injEq, Prod.mk.injEq] at h
    obtain ⟨rfl, rfl, rfl⟩ := h
    exact ⟨hacc, henv⟩
  | s :: rest, env, cnt, acc, v, env1, cnt1, henv, hacc, h => by
    rw [evalProgramStmts_eq_cons] at h
    split at h
    · exact Option.noConfusion h
    · rename_i res env2 cnt2 heq
      obtain ⟨hres, henv2⟩ := evalStmt_ok s env cnt res env2 cnt2 henv heq
      split at h
      · rename_i id rv
        simp only [Option.some.injEq, Prod.mk.injEq] at h
        obtain ⟨rfl, rfl, rfl⟩ := h
        exact ⟨hres, henv2⟩
      · simp only [Option.some.injEq, Prod.mk.injEq] at h
        obtain ⟨rfl, rfl, rfl⟩ := h
        exact ⟨rfl, henv2⟩
      · exact evalProgramStmts_ok rest env2 cnt2 res v env1 cnt1 henv2 hres h

theorem evalBlockStmts_ok : ∀ (stmts : List Stmt) (env : Env) (cnt : Nat) (acc v : GoVal)
    (env1 : Env) (cnt1 : Nat),
    okEnv env = true → okVal acc = true →
    evalBlockStmts stmts env cnt acc = some (v, env1, cnt1) →
    okVal v = true ∧ okEnv env1 = true
  | [], env, cnt, acc, v, env1, cnt1, henv, hacc, h => by
    rw [evalBlockStmts_eq_nil] at h
    simp only [Option.some.injEq, Prod.mk.injEq] at h
    obtain ⟨rfl, rfl, rfl⟩ := h
    exact ⟨hacc, henv⟩
  | s :: rest, env, cnt, acc, v, env1, cnt1, henv, hacc, h => by
    rw [evalBlockStmts_eq_cons] at h
    split at h
    · exact Option.noConfusion h
    · rename_i res env2 cnt2 heq
      obtain ⟨hres, henv2⟩ := evalStmt_ok s env cnt res env2 cnt2 henv heq
      split at h
      · rename_i o
        split at h
        · simp only [Option.some.injEq, Prod.mk.injEq] at h
          obtain ⟨rfl, rfl, rfl⟩ := h
          exact ⟨hres, henv2⟩
        · exact evalBlockStmts_ok rest env2 cnt2 (some o) v env1 cnt1 henv2 hres h
      · exact evalBlockStmts_ok rest env2 cnt2 none v env1 cnt1 henv2 rfl h

end

/-! ## Abort-freedom on the division-free fragment

On the fragment carved out by `valExpr`/`valStmt`, with an environment whose
bindings are all present, evaluation never returns the abort marker: every
expression yields a non-nil value and every statement yields a result. -/

mutual

theorem evalExpr_total : ∀ (e : Expr) (env : Env) (cnt : Nat),
    valExpr e = true → envAllSome env = true →
    ∃ v env1 cnt1, evalExpr e env cnt = some (some v, env1, cnt1) ∧ envAllSome env1 = true
  | .Identifier name, env, cnt, _, henv => by
    rcases hg : envGet env name with _ | w
    · exact ⟨.error (errIdentifierUnknownMsg name), env, cnt, by rw [evalExpr_eq_ident, hg], henv⟩
    · have hw := envGet_allSome env name w henv hg
      rcases w with _ | wo
      · simp at hw
      · exact ⟨wo, env, cnt, by rw [evalExpr_eq_ident, hg], henv⟩
  | .IntegerLiteral n, env, cnt, _, henv =>
    ⟨.integer n, env, cnt, by rw [evalExpr_eq_int], henv⟩
  | .BooleanLiteral b, env, cnt, _, henv =>
    ⟨nativeBooleanToObject b, env, cnt, by rw [evalExpr_eq_bool], henv⟩
  | .FunctionLiteral ps body, env, cnt, _, henv =>
    ⟨.function cnt ps body env, env, cnt + 1, by rw [evalExpr_eq_fn], henv⟩
  | .PrefixExpression op r, env, cnt, he, henv => by
    have hr : valExpr r = true := he
    obtain ⟨ov, env2, cnt2, heq, henv2⟩ := evalExpr_total r env cnt hr henv
    have step : evalExpr (.PrefixExpression op r) env cnt =
        (if isError (some ov) then some (some ov, env2, cnt2)
         else
           match evalPrefixExpression op (some ov) with
           | none => none
           | some o => some (some o, env2, cnt2)) := by
      rw [evalExpr_eq_pre, heq]
    by_cases hie : isError (some ov) = true
    · exact ⟨ov, env2, cnt2, by rw [step, if_pos hie], henv2⟩
    · obtain ⟨o2, hp⟩ := evalPrefixExpression_total op ov
      exact ⟨o2, env2, cnt2, by rw [step, if_neg hie, hp], henv2⟩
  | .InfixExpression op l r, env, cnt, he, henv => by
    have he' : (op != "/" && valExpr l && valExpr r) = true := he
    simp only [Bool.and_eq_true, bne_iff_ne] at he'
    obtain ⟨⟨hop, hl⟩, hr⟩ := he'
    obtain ⟨lv, env2, cnt2, heql, henv2⟩ := evalExpr_total l env cnt hl henv
    have step1 : evalExpr (.InfixExpression op l r) env cnt =
        (if isError (some lv) then some (some lv, env2, cnt2)
         else
           match evalExpr r env2 cnt2 with
           | none => none
           | some (rv, env3, cnt3) =>
             if isError rv then some (rv, env3, cnt3)
             else
               match evalInfixExpression op (some lv) rv with
               | none => none
               | some o => some (some o, env3, cnt3)) := by
      rw [evalExpr_eq_inf, heql]
    by_cases hel : isError (some lv) = true
    · exact ⟨lv, env2, cnt2, by rw [step1, if_pos hel], henv2⟩
    · obtain ⟨rv, env3, cnt3, heqr, henv3⟩ := evalExpr_total r env2 cnt2 hr henv2
      have step2 : evalExpr (.InfixExpression op l r) env cnt =
          (if isError (some rv) then some (some rv, env3, cnt3)
           else
             match evalInfixExpression op (some lv) (some rv) with
             | none => none
             | some o => some (some o, env3, cnt3)) := by
        rw [step1, if_neg hel, heqr]
      by_cases her : isError (some rv) = true
      · exact ⟨rv, env3, cnt3, by rw [step2, if_pos her], henv3⟩
      · obtain ⟨o, hi⟩ := evalInfixExpression_total op lv rv hop
        exact ⟨o, env3, cnt3, by rw [step2, if_neg her, hi], henv3⟩
  | .IfExpression c t none, env, cnt, he, henv => by
    have he' : (valExpr c && valBlock t && true) = true := he
    simp only [Bool.and_eq_true] at he'
    obtain ⟨⟨hc, ht⟩, -⟩ := he'
    obtain ⟨cv, env2, cnt2, heqc, henv2⟩ := evalExpr_total c env cnt hc henv
    have step : evalExpr (.IfExpression c t none) env cnt =
        (if isError (some cv) then some (some cv, env2, cnt2)
         else if isTruthy (some cv) then evalBlockStmts t env2 cnt2 none
         else some (some NULL, env2, cnt2)) := by
      rw [evalExpr_eq_ifNone, heqc]
    by_cases hie : isError (some cv) = true
    · exact ⟨cv, env2, cnt2, by rw [step, if_pos hie], henv2⟩
    · by_cases htr : isTruthy (some cv) = true
      · obtain ⟨v, env3, cnt3, heqb, henv3⟩ := evalBlock_total t env2 cnt2 none ht henv2
        exact ⟨v, env3, cnt3, by rw [step, if_neg hie, if_pos htr]; exact heqb, henv3⟩
      · exact ⟨NULL, env2, cnt2, by rw [step, if_neg hie, if_neg htr], henv2⟩
  | .IfExpression c t (some blk), env, cnt, he, henv => by
    have he' : (valExpr c && valBlock t && valBlock blk) = true := he
    simp only [Bool.and_eq_true] at he'
    obtain ⟨⟨hc, ht⟩, hb⟩ := he'
    obtain ⟨cv, env2, cnt2, heqc, henv2⟩ := evalExpr_total c env cnt hc henv
    have step : evalExpr (.IfExpression c t (some blk)) env cnt =
        (if isError (some cv) then some (some cv, env2, cnt2)
         else if isTruthy (some cv) then evalBlockStmts t env2 cnt2 none
         else evalBlockStmts blk env2 cnt2 none) := by
      rw [evalExpr_eq_ifSome, heqc]
    by_cases hie : isError (some cv) = true
    · exact ⟨cv, env2, cnt2, by rw [step, if_pos hie], henv2⟩
    · by_cases htr : isTruthy (some cv) = true
      · obtain ⟨v, env3, cnt3, heqb, henv3⟩ := evalBlock_total t env2 cnt2 none ht henv2
        exact ⟨v, env3, cnt3, by rw [step, if_neg hie, if_pos htr]; exact heqb, henv3⟩
      · obtain ⟨v, env3, cnt3, heqb, henv3⟩ := evalBlock_total blk env2 cnt2 none hb henv2
        exact ⟨v, env3, cnt3, by rw [step, if_neg hie, if_neg htr]; exact heqb, henv3⟩
  | .CallExpression callee args, env, cnt, he, henv => by
    exact Bool.noConfusion he

theorem evalStmt_total : ∀ (s : Stmt) (env : Env) (cnt : Nat),
    valStmt s = true → envAllSome env = true →
    ∃ r env1 cnt1, evalStmt s env cnt = some (r, env1, cnt1) ∧ envAllSome env1 = true
  | .LetStatement name none, env, cnt, hs, henv => by
    exact Bool.noConfusion hs
  | .LetStatement name (some e), env, cnt, hs, henv => by
    have he : valExpr e = true := hs
    obtain ⟨val, env2, cnt2, heq, henv2⟩ := evalExpr_total e env cnt he henv
    have step : evalStmt (.LetStatement name (some e)) env cnt =
        (if isError (some val) then some (some val, env2, cnt2)
         else some (none, envSet env2 name (some val), cnt2)) := by
      rw [evalStmt_eq_letSome, heq]
    by_cases herr : isError (some val) = true
    · exact ⟨some val, env2, cnt2, by rw [step, if_pos herr], henv2⟩
    · exact ⟨none, envSet env2 name (some val), cnt2, by rw [step, if_neg herr],
        envSet_allSome env2 name (some val) henv2 rfl⟩
  | .ReturnStatement e, env, cnt, hs, henv => by
    have he : valExpr e = true := hs
    obtain ⟨val, env2, cnt2, heq, henv2⟩ := evalExpr_total e env cnt he henv
    have step : evalStmt (.ReturnStatement e) env cnt =
        (if isError (some val) then some (some val, env2, cnt2)
         else some (some (.returnValue cnt2 (some val)), env2, cnt2 + 1)) := by
      rw [evalStmt_eq_ret, heq]
    by_cases herr : isError (some val) = true
    · exact ⟨some val, env2, cnt2, by rw [step, if_pos herr], henv2⟩
    · exact ⟨some (.returnValue cnt2 (some val)), env2, cnt2 + 1, by rw [step, if_neg herr], henv2⟩
  | .ExpressionStatement e, env, cnt, hs, henv => by
    have he : valExpr e = true := hs
    obtain ⟨v, env1, cnt1, heq, henv1⟩ := evalExpr_total e env cnt he henv
    exact ⟨some v, env1, cnt1, by rw [evalStmt_eq_expr]; exact heq, henv1⟩
  | .BlockStatement stmts, env, cnt, hs, henv => by
    have hss : valStmts stmts = true := hs
    obtain ⟨r, env1, cnt1, heq, henv1⟩ := evalBlockStmts_total stmts env cnt none hss henv
    exact ⟨r, env1, cnt1, by rw [evalStmt_eq_block]; exact heq, henv1⟩

theorem evalStmt_lastSome_total : ∀ (s : Stmt) (env : Env) (cnt : Nat),
    lastSome s = true → valStmt s = true → envAllSome env = true →
    ∃ v env1 cnt1, evalStmt s env cnt = some (some v, env1, cnt1) ∧ envAllSome env1 = true
  | .LetStatement name v, env, cnt, hl, _, _ => by
    exact Bool.noConfusion hl
  | .ReturnStatement e, env, cnt, _, hs, henv => by
    have he : valExpr e = true := hs
    obtain ⟨val, env2, cnt2, heq, henv2⟩ := evalExpr_total e env cnt he henv
    have step : evalStmt (.ReturnStatement e) env cnt =
        (if isError (some val) then some (some val, env2, cnt2)
         else some (some (.returnValue cnt2 (some val)), env2, cnt2 + 1)) := by
      rw [evalStmt_eq_ret, heq]
    by_cases herr : isError (some val) = true
    · exact ⟨val, env2, cnt2, by rw [step, if_pos herr], henv2⟩
    · exact ⟨.returnValue cnt2 (some val), env2, cnt2 + 1, by rw [step, if_neg herr], henv2⟩
  | .ExpressionStatement e, env, cnt, _, hs, henv => by
    have he : valExpr e = true := hs
    obtain ⟨v, env1, cnt1, heq, henv1⟩ := evalExpr_total e env cnt he henv
    exact ⟨v, env1, cnt1, by rw [evalStmt_eq_expr]; exact heq, henv1⟩
  | .BlockStatement stmts, env, cnt, hl, _, henv => by
    have hb : valBlock stmts = true := hl
    obtain ⟨v, env1, cnt1, heq, henv1⟩ := evalBlock_total stmts env cnt none hb henv
    exact ⟨v, env1, cnt1, by rw [evalStmt_eq_block]; exact heq, henv1⟩

theorem evalBlockStmts_total : ∀ (stmts : List Stmt) (env : Env) (cnt : Nat) (acc : GoVal),
    valStmts stmts = true → envAllSome env = true →
    ∃ r env1 cnt1, evalBlockStmts stmts env cnt acc = some (r, env1, cnt1) ∧ envAllSome env1 = true
  | [], env, cnt, acc, _, henv =>
    ⟨acc, env, cnt, by rw [evalBlockStmts_eq_nil], henv⟩
  | s :: rest, env, cnt, acc, hs, henv => by
    have hs' : (valStmt s && valStmts rest) = true := hs
    simp only [Bool.and_eq_true] at hs'
    obtain ⟨h1, h2⟩ := hs'
    obtain ⟨res, env2, cnt2, heq, henv2⟩ := evalStmt_total s env cnt h1 henv
    rcases res with _ | o
    · have step : evalBlockStmts (s :: rest) env cnt acc = evalBlockStmts rest env2 cnt2 none := by
        rw [evalBlockStmts_eq_cons, heq]
      obtain ⟨r, env3, cnt3, heqr, henv3⟩ := evalBlockStmts_total rest env2 cnt2 none h2 henv2
      exact ⟨r, env3, cnt3, by rw [step]; exact heqr, henv3⟩
    · have step : evalBlockStmts (s :: rest) env cnt acc =
          (if typeOf o == O_RETURN_VALUE || isError (some o) then some (some o, env2, cnt2)
           else evalBlockStmts rest env2 cnt2 (some o)) := by
        rw [evalBlockStmts_eq_cons, heq]
      by_cases hsh : (typeOf o == O_RETURN_VALUE || isError (some o)) = true
      · exact ⟨some o, env2, cnt2, by rw [step, if_pos hsh], henv2⟩
      · obtain ⟨r, env3, cnt3, heqr, henv3⟩ := evalBlockStmts_total rest env2 cnt2 (some o) h2 henv2
        exact ⟨r, env3, cnt3, by rw [step, if_neg hsh]; exact heqr, henv3⟩

theorem evalBlock_total : ∀ (stmts : List Stmt) (env : Env) (cnt : Nat) (acc : GoVal),
    valBlock stmts = true → envAllSome env = true →
    ∃ v env1 cnt1, evalBlockStmts stmts env cnt acc = some (some v, env1, cnt1) ∧ envAllSome env1 = true
  | [], env, cnt, acc, hb, _ => by
    exact Bool.noConfusion hb
  | [s], env, cnt, acc, hb, henv => by
    have hb' : (valStmt s && lastSome s) = true := hb
    simp only [Bool.and_eq_true] at hb'
    obtain ⟨h1, h2⟩ := hb'
    obtain ⟨v, env2, cnt2, heq, henv2⟩ := evalStmt_lastSome_total s env cnt h2 h1 henv
    have step : evalBlockStmts [s] env cnt acc =
        (if typeOf v == O_RETURN_VALUE || isError (some v) then some (some v, env2, cnt2)
         else evalBlockStmts [] env2 cnt2 (some v)) := by
      rw [evalBlockStmts_eq_cons, heq]
    by_cases hsh : (typeOf v == O_RETURN_VALUE || isError (some v)) = true
    · exact ⟨v, env2, cnt2, by rw [step, if_pos hsh], henv2⟩
    · exact ⟨v, env2, cnt2, by rw [step, if_neg hsh, evalBlockStmts_eq_nil], henv2⟩
  | s :: r1 :: rs, env, cnt, acc, hb, henv => by
    have hb' : (valStmt s && valBlock (r1 :: rs)) = true := hb
    simp only [Bool.and_eq_true] at hb'
    obtain ⟨h1, h2⟩ := hb'
    obtain ⟨res, env2, cnt2, heq, henv2⟩ := evalStmt_total s env cnt h1 henv
    rcases res with _ | o
    · have step : evalBlockStmts (s :: r1 :: rs) env cnt acc =
          evalBlockStmts (r1 :: rs) env2 cnt2 none := by
        rw [evalBlockStmts_eq_cons, heq]
      obtain ⟨v, env3, cnt3, heqr, henv3⟩ := evalBlock_total (r1 :: rs) env2 cnt2 none h2 henv2
      exact ⟨v, env3, cnt3, by rw [step]; exact heqr, henv3⟩
    · have step : evalBlockStmts (s :: r1 :: rs) env cnt acc =
          (if typeOf o == O_RETURN_VALUE || isError (some o) then some (some o, env2, cnt2)
           else evalBlockStmts (r1 :: rs) env2 cnt2 (some o)) := by
        rw [evalBlockStmts_eq_cons, heq]
      by_cases hsh : (typeOf o == O_RETURN_VALUE || isError (some o)) = true
      · exact ⟨o, env2, cnt2, by rw [step, if_pos hsh], henv2⟩
      · obtain ⟨v, env3, cnt3, heqr, henv3⟩ := evalBlock_total (r1 :: rs) env2 cnt2 (some o) h2 henv2
        exact ⟨v, env3, cnt3, by rw [step, if_neg hsh]; exact heqr, henv3⟩

end

theorem evalProgramStmts_total : ∀ (stmts : List Stmt) (env : Env) (cnt : Nat) (acc : GoVal),
    valStmts stmts = true → envAllSome env = true →
    ∃ r env1 cnt1, evalProgramStmts stmts env cnt acc = some (r, env1, cnt1) ∧ envAllSome env1 = true
  | [], env, cnt, acc, _, henv =>
    ⟨acc, env, cnt, by rw [evalProgramStmts_eq_nil], henv⟩
  | s :: rest, env, cnt, acc, hs, henv => by
    have hs' : (valStmt s && valStmts rest) = true := hs
    simp only [Bool.and_eq_true] at hs'
    obtain ⟨h1, h2⟩ := hs'
    obtain ⟨res, env2, cnt2, heq, henv2⟩ := evalStmt_total s env cnt h1 henv
    rcases res with _ | o
    · have step : evalProgramStmts (s :: rest) env cnt acc =
          evalProgramStmts rest env2 cnt2 none := by
        rw [evalProgramStmts_eq_cons, heq]
      obtain ⟨r, env3, cnt3, heqr, henv3⟩ := evalProgramStmts_total rest env2 cnt2 none h2 henv2
      exact ⟨r, env3, cnt3, by rw [step]; exact heqr, henv3⟩
    · cases o with
      | returnValue id v =>
        exact ⟨v, env2, cnt2, by rw [evalProgramStmts_eq_cons, heq], henv2⟩
      | error m =>
        exact ⟨some (.error m), env2, cnt2, by rw [evalProgramStmts_eq_cons, heq], henv2⟩
      | integer n =>
        have step : evalProgramStmts (s :: rest) env cnt acc =
            evalProgramStmts rest env2 cnt2 (some (.integer n)) := by
          rw [evalProgramStmts_eq_cons, heq]
        obtain ⟨r, env3, cnt3, heqr, henv3⟩ :=
          evalProgramStmts_total rest env2 cnt2 (some (.integer n)) h2 henv2
        exact ⟨r, env3, cnt3, by rw [step]; exact heqr, henv3⟩
      | boolean id b =>
        have step : evalProgramStmts (s :: rest) env cnt acc =
            evalProgramStmts rest env2 cnt2 (some (.boolean id b)) := by
          rw [evalProgramStmts_eq_cons, heq]
        obtain ⟨r, env3, cnt3, heqr, henv3⟩ :=
          evalProgramStmts_total rest env2 cnt2 (some (.boolean id b)) h2 henv2
        exact ⟨r, env3, cnt3, by rw [step]; exact heqr, henv3⟩
      | null =>
        have step : evalProgramStmts (s :: rest) env cnt acc =
            evalProgramStmts rest env2 cnt2 (some .null) := by
          rw [evalProgramStmts_eq_cons, heq]
        obtain ⟨r, env3, cnt3, heqr, henv3⟩ :=
          evalProgramStmts_total rest env2 cnt2 (some .null) h2 henv2
        exact ⟨r, env3, cnt3, by rw [step]; exact heqr, henv3⟩
      | function id ps body fenv =>
        have step : evalProgramStmts (s :: rest) env cnt acc =
            evalProgramStmts rest env2 cnt2 (some (.function id ps body fenv)) := by
          rw [evalProgramStmts_eq_cons, heq]
        obtain ⟨r, env3, cnt3, heqr, henv3⟩ :=
          evalProgramStmts_total rest env2 cnt2 (some (.function id ps body fenv)) h2 henv2
        exact ⟨r, env3, cnt3, by rw [step]; exact heqr, henv3⟩

/-- A let statement's result is either the propagated error or the Go nil. -/
theorem evalLet_result (name : String) (v : Option Expr) (env : Env) (cnt : Nat)
    (res : GoVal) (env1 : Env) (cnt1 : Nat)
    (h : evalStmt (.LetStatement name v) env cnt = some (res, env1, cnt1)) :
    isError res = true ∨ res = none := by
  cases v with
  | none =>
    rw [evalStmt_eq_letNone] at h
    simp only [Option.some.injEq, Prod.mk.injEq] at h
    obtain ⟨rfl, rfl, rfl⟩ := h
    exact Or.inr rfl
  | some e =>
    rw [evalStmt_eq_letSome] at h
    split at h
    · exact Option.noConfusion h
    · rename_i val env2 cnt2 heq
      split at h
      · rename_i herr
        simp only [Option.some.injEq, Prod.mk.injEq] at h
        obtain ⟨rfl, rfl, rfl⟩ := h
        exact Or.inl herr
      · simp only [Option.some.injEq, Prod.mk.injEq] at h
        obtain ⟨rfl, rfl, rfl⟩ := h
        exact Or.inr rfl

theorem runNormally_eq_nil (env : Env) (cnt : Nat) :
    runNormally [] env cnt = some (env, cnt) := rfl

theorem runNormally_eq_cons (s : Stmt) (rest : List Stmt) (env : Env) (cnt : Nat) :
    runNormally (s :: rest) env cnt =
      (match evalStmt s env cnt with
       | none => none
       | some (some (.returnValue _ _), _, _) => none
       | some (some (.error _), _, _) => none
       | some (_, env1, cnt1) => runNormally rest env1 cnt1) := rfl

theorem runNormally_append_let : ∀ (stmts : List Stmt) (env : Env) (cnt : Nat) (acc : GoVal)
    (name : String) (v : Option Expr) (env1 : Env) (cnt1 : Nat) (res : GoVal) (env2 : Env) (cnt2 : Nat),
    runNormally stmts env cnt = some (env1, cnt1) →
    evalStmt (.LetStatement name v) env1 cnt1 = some (res, env2, cnt2) →
    isError res = false →
    evalProgramStmts (stmts ++ [.LetStatement name v]) env cnt acc = some (none, env2, cnt2)
  | [], env, cnt, acc, name, v, env1, cnt1, res, env2, cnt2, hrun, hlet, herr => by
    rw [runNormally_eq_nil] at hrun
    simp only [Option.some.injEq, Prod.mk.injEq] at hrun
    obtain ⟨rfl, rfl⟩ := hrun
    rcases evalLet_result name v env cnt res env2 cnt2 hlet with he | rfl
    · rw [herr] at he
      exact Bool.noConfusion he
    · rw [List.nil_append, evalProgramStmts_eq_cons, hlet]
      exact rfl
  | s :: rest, env, cnt, acc, name, v, env1, cnt1, res, env2, cnt2, hrun, hlet, herr => by
    rw [runNormally_eq_cons] at hrun
    rcases heq : evalStmt s env cnt with _ | ⟨r0, envA, cntA⟩ <;> rw [heq] at hrun
    · exact Option.noConfusion hrun
    · rcases r0 with _ | o
      · rw [List.cons_append, evalProgramStmts_eq_cons, heq]
        exact runNormally_append_let rest envA cntA none name v env1 cnt1 res env2 cnt2 hrun hlet herr
      · cases o with
        | returnValue id rv => exact Option.noConfusion hrun
        | error m => exact Option.noConfusion hrun
        | integer n =>
          rw [List.cons_append, evalProgramStmts_eq_cons, heq]
          exact runNormally_append_let rest envA cntA _ name v env1 cnt1 res env2 cnt2 hrun hlet herr
        | boolean id b =>
          rw [List.cons_append, evalProgramStmts_eq_cons, heq]
          exact runNormally_append_let rest envA cntA _ name v env1 cnt1 res env2 cnt2 hrun hlet herr
        | null =>
          rw [List.cons_append, evalProgramStmts_eq_cons, heq]
          exact runNormally_append_let rest envA cntA _ name v env1 cnt1 res env2 cnt2 hrun hlet herr
        | function id ps body fenv =>
          rw [List.cons_append, evalProgramStmts_eq_cons, heq]
          exact runNormally_append_let rest envA cntA _ name v env1 cnt1 res env2 cnt2 hrun hlet herr

/-! ## Claim theorems -/

/-- C1: statements are evaluated in order against the given environment; as
soon as a statement's value is a ReturnValue or an Error, evaluation stops
and that value is propagated without evaluating the remaining statements; at
the top-level Program boundary a ReturnValue is unwrapped to its inner value
while inside a nested Block it is passed through still wrapped. -/
theorem claim_C1_short_circuit (s : Stmt) (rest : List Stmt) (env : Env) (cnt : Nat)
    (res : GoVal) (env1 : Env) (cnt1 : Nat)
    (heval : evalStmt s env cnt = some (res, env1, cnt1)) :
    (∀ id v, res = some (Object.returnValue id v) →
       evalProgram (s :: rest) env cnt = some (v, env1, cnt1) ∧
       evalBlockStatement (s :: rest) env cnt = some (res, env1, cnt1)) ∧
    (∀ m, res = some (Object.error m) →
       evalProgram (s :: rest) env cnt = some (res, env1, cnt1) ∧
       evalBlockStatement (s :: rest) env cnt = some (res, env1, cnt1)) ∧
    ((∀ o, res = some o → typeOf o ≠ O_RETURN_VALUE ∧ typeOf o ≠ O_ERROR) →
       evalProgram (s :: rest) env cnt = evalProgramStmts rest env1 cnt1 res ∧
       evalBlockStatement (s :: rest) env cnt = evalBlockStmts rest env1 cnt1 res) := by
  refine ⟨?_, ?_, ?_⟩
  · rintro id v rfl
    constructor
    · show evalProgramStmts (s :: rest) env cnt none = _
      rw [evalProgramStmts_eq_cons, heval]
    · show evalBlockStmts (s :: rest) env cnt none = _
      rw [evalBlockStmts_eq_cons, heval]
      exact rfl
  · rintro m rfl
    constructor
    · show evalProgramStmts (s :: rest) env cnt none = _
      rw [evalProgramStmts_eq_cons, heval]
    · show evalBlockStmts (s :: rest) env cnt none = _
      rw [evalBlockStmts_eq_cons, heval]
      exact rfl
  · intro hns
    constructor
    · show evalProgramStmts (s :: rest) env cnt none = _
      rw [evalProgramStmts_eq_cons, heval]
      rcases res with _ | o
      · exact rfl
      · cases o with
        | returnValue id v => exact absurd rfl (hns _ rfl).1
        | error m => exact absurd rfl (hns _ rfl).2
        | integer n => exact rfl
        | boolean id b => exact rfl
        | null => exact rfl
        | function id ps body fenv => exact rfl
    · show evalBlockStmts (s :: rest) env cnt none = _
      rw [evalBlockStmts_eq_cons, heval]
      rcases res with _ | o
      · exact rfl
      · cases o with
        | returnValue id v => exact absurd rfl (hns _ rfl).1
        | error m => exact absurd rfl (hns _ rfl).2
        | integer n => exact rfl
        | boolean id b => exact rfl
        | null => exact rfl
        | function id ps body fenv => exact rfl

/-- Witness for C1 at `return 5; 9`: the program unwraps the return value
and ignores the trailing statement; the block keeps it wrapped. -/
theorem claim_C1_short_circuit_witness :
    evalProgram [Stmt.ReturnStatement (Expr.IntegerLiteral 5),
      Stmt.ExpressionStatement (Expr.IntegerLiteral 9)] emptyEnv 0 =
      some (some (Object.integer 5), emptyEnv, 1) ∧
    evalBlockStatement [Stmt.ReturnStatement (Expr.IntegerLiteral 5),
      Stmt.ExpressionStatement (Expr.IntegerLiteral 9)] emptyEnv 0 =
      some (some (Object.returnValue 0 (some (Object.integer 5))), emptyEnv, 1) :=
  (claim_C1_short_circuit (Stmt.ReturnStatement (Expr.IntegerLiteral 5))
    [Stmt.ExpressionStatement (Expr.IntegerLiteral 9)] emptyEnv 0
    (some (Object.returnValue 0 (some (Object.integer 5)))) emptyEnv 1 rfl).1
    0 (some (Object.integer 5)) rfl

/-- C2: infix dispatch order — (1) differing operand types give the
type-mismatch error (so `5 + true` errors naming both types and the
operator), (2) two integers go to the integer-infix rule, (3) `==`/`!=` on
same-typed non-integers compare by identity, (4) anything else is the
unknown-operator error. -/
theorem claim_C2_infix_dispatch :
    (∀ (op : String) (l r : Object),
       (typeOf l ≠ typeOf r →
          evalInfixExpression op (some l) (some r) =
            some (.error (errInfixMismatchMsg (typeOf l) op (typeOf r)))) ∧
       (typeOf l = O_INTEGER → typeOf r = O_INTEGER →
          evalInfixExpression op (some l) (some r) = evalIntegerInfixExpression op l r) ∧
       (typeOf l = typeOf r → typeOf l ≠ O_INTEGER →
          evalInfixExpression "==" (some l) (some r) =
            some (nativeBooleanToObject (identityEq l r)) ∧
          evalInfixExpression "!=" (some l) (some r) =
            some (nativeBooleanToObject (!identityEq l r))) ∧
       (typeOf l = typeOf r → typeOf l ≠ O_INTEGER → op ≠ "==" → op ≠ "!=" →
          evalInfixExpression op (some l) (some r) =
            some (.error (errInfixUnknownMsg (typeOf l) op (typeOf r))))) ∧
    evalProgram [Stmt.ExpressionStatement
        (Expr.InfixExpression "+" (Expr.IntegerLiteral 5) (Expr.BooleanLiteral true))]
      emptyEnv 0 =
      some (some (.error (errInfixMismatchMsg O_INTEGER "+" O_BOOLEAN)), emptyEnv, 0) := by
  constructor
  · intro op l r
    refine ⟨?_, ?_, ?_, ?_⟩
    · intro hne
      simp only [evalInfixExpression]
      rw [if_pos (by simp [bne_iff_ne]; exact hne)]
    · intro hl hr
      simp only [evalInfixExpression]
      rw [if_neg (by simp [bne_iff_ne, hl, hr]), if_pos (by simp [hl, hr])]
    · intro heq hnint
      constructor
      · simp only [evalInfixExpression]
        rw [if_neg (by simp [bne_iff_ne, heq]), if_neg (by simp [hnint])]
        exact rfl
      · simp only [evalInfixExpression]
        rw [if_neg (by simp [bne_iff_ne, heq]), if_neg (by simp [hnint])]
        exact rfl
    · intro heq hnint hne1 hne2
      simp only [evalInfixExpression]
      rw [if_neg (by simp [bne_iff_ne, heq]), if_neg (by simp [hnint]),
        if_neg (by simp [hne1]), if_neg (by simp [hne2])]
  · exact rfl

/-- Witness for C2 at `5 + true`: the first dispatch case fires. -/
theorem claim_C2_infix_dispatch_witness :
    evalInfixExpression "+" (some (Object.integer 5)) (some (Object.boolean 0 true)) =
      some (.error (errInfixMismatchMsg (typeOf (Object.integer 5)) "+"
        (typeOf (Object.boolean 0 true)))) :=
  (claim_C2_infix_dispatch.1 "+" (Object.integer 5) (Object.boolean 0 true)).1 (by decide)

/-- C3 counterexample: evaluating `5 / 0` does abort the host process (the
unguarded Go integer division panics), so evaluation does not return a
runtime value for every input. -/
theorem claim_C3_counterexample :
    evalProgram [Stmt.ExpressionStatement
      (Expr.InfixExpression "/" (Expr.IntegerLiteral 5) (Expr.IntegerLiteral 0))]
      emptyEnv 0 = none := rfl

/-- C3 amended: language-level faults become Error values and evaluation
returns a result — never the abort marker — for every node of the
division-free, call-free fragment (`valExpr`/`valStmt`/`valStmts`, which
also requires let statements to carry a value and blocks in value position
to end in a value-producing statement) under an environment whose bindings
are all present; integer division by zero aborts. -/
theorem claim_C3_no_abort_on_fragment :
    (∀ (e : Expr) (env : Env) (cnt : Nat), valExpr e = true → envAllSome env = true →
       ∃ v env1 cnt1, evalExpr e env cnt = some (some v, env1, cnt1)) ∧
    (∀ (s : Stmt) (env : Env) (cnt : Nat), valStmt s = true → envAllSome env = true →
       ∃ r env1 cnt1, evalStmt s env cnt = some (r, env1, cnt1)) ∧
    (∀ (stmts : List Stmt) (env : Env) (cnt : Nat), valStmts stmts = true → envAllSome env = true →
       ∃ r env1 cnt1, evalProgram stmts env cnt = some (r, env1, cnt1)) := by
  refine ⟨?_, ?_, ?_⟩
  · intro e env cnt he henv
    obtain ⟨v, env1, cnt1, h, -⟩ := evalExpr_total e env cnt he henv
    exact ⟨v, env1, cnt1, h⟩
  · intro s env cnt hs henv
    obtain ⟨r, env1, cnt1, h, -⟩ := evalStmt_total s env cnt hs henv
    exact ⟨r, env1, cnt1, h⟩
  · intro stmts env cnt hs henv
    obtain ⟨r, env1, cnt1, h, -⟩ := evalProgramStmts_total stmts env cnt none hs henv
    exact ⟨r, env1, cnt1, h⟩

/-- Witness for the amended C3 at the program `5 + 5 * 2`. -/
theorem claim_C3_no_abort_witness :
    ∃ r env1 cnt1,
      evalProgram [Stmt.ExpressionStatement (Expr.InfixExpression "+" (Expr.IntegerLiteral 5)
        (Expr.InfixExpression "*" (Expr.IntegerLiteral 5) (Expr.IntegerLiteral 2)))]
        emptyEnv 0 = some (r, env1, cnt1) :=
  claim_C3_no_abort_on_fragment.2.2
    [Stmt.ExpressionStatement (Expr.InfixExpression "+" (Expr.IntegerLiteral 5)
      (Expr.InfixExpression "*" (Expr.IntegerLiteral 5) (Expr.IntegerLiteral 2)))]
    emptyEnv 0 rfl rfl

/-- C7: `!v` yields the FALSE singleton exactly when `v` is truthy and TRUE
exactly when `v` is falsy; among the values the evaluator can produce
(`okObj`), precisely Null and the false boolean are falsy and every other
value — including every integer — is truthy; `!5` is false and `!!5` is
true. -/
theorem claim_C7_truthiness :
    (∀ v : Object, okObj v = true →
       ((evalBangOperatorExpression (some v) = FALSE ↔ isTruthy (some v) = true) ∧
        (evalBangOperatorExpression (some v) = TRUE ↔ isTruthy (some v) = false) ∧
        (isTruthy (some v) = false ↔ (v = NULL ∨ v = FALSE)) ∧
        (∀ id b, v = Object.boolean id b → b = false → v = FALSE) ∧
        (∀ n, v = Object.integer n → isTruthy (some v) = true))) ∧
    evalProgram [Stmt.ExpressionStatement (Expr.PrefixExpression "!" (Expr.IntegerLiteral 5))]
      emptyEnv 0 = some (some FALSE, emptyEnv, 0) ∧
    evalProgram [Stmt.ExpressionStatement (Expr.PrefixExpression "!"
      (Expr.PrefixExpression "!" (Expr.IntegerLiteral 5)))] emptyEnv 0 =
      some (some TRUE, emptyEnv, 0) := by
  refine ⟨?_, rfl, rfl⟩
  intro v hok
  have hbang : evalBangOperatorExpression (some v) =
      if isTruthy (some v) then FALSE else TRUE := rfl
  refine ⟨?_, ?_, ?_, ?_, ?_⟩
  · rw [hbang]
    by_cases hit : isTruthy (some v) = true <;> simp [hit, TRUE, FALSE]
  · rw [hbang]
    by_cases hit : isTruthy (some v) = true <;> simp [hit, TRUE, FALSE]
  · cases v with
    | null => simp [show isTruthy (some Object.null) = false from rfl, NULL]
    | boolean id b =>
      have hok' : ((id == 0 && b == true) || (id == 1 && b == false)) = true := hok
      simp only [Bool.or_eq_true, Bool.and_eq_true, beq_iff_eq] at hok'
      rcases hok' with ⟨rfl, rfl⟩ | ⟨rfl, rfl⟩
      · simp [show isTruthy (some (Object.boolean 0 true)) = true from rfl, NULL, FALSE]
      · simp [show isTruthy (some (Object.boolean 1 false)) = false from rfl, NULL, FALSE]
    | integer n =>
      simp [show isTruthy (some (Object.integer n)) = true from rfl, NULL, FALSE]
    | returnValue id w =>
      simp [show isTruthy (some (Object.returnValue id w)) = true from rfl, NULL, FALSE]
    | function id ps body fenv =>
      simp [show isTruthy (some (Object.function id ps body fenv)) = true from rfl, NULL, FALSE]
    | error m =>
      simp [show isTruthy (some (Object.error m)) = true from rfl, NULL, FALSE]
  · rintro id b rfl rfl
    have hok' : ((id == 0 && (false == true)) || (id == 1 && (false == false))) = true := hok
    simp only [Bool.or_eq_true, Bool.and_eq_true, beq_iff_eq] at hok'
    rcases hok' with ⟨rfl, h⟩ | ⟨rfl, -⟩
    · exact absurd h (by simp)
    · rfl
  · rintro n rfl
    rfl

/-- Witness for C7 at the integer 5: a nonzero integer is truthy. -/
theorem claim_C7_truthiness_witness : isTruthy (some (Object.integer 5)) = true :=
  (claim_C7_truthiness.1 (Object.integer 5) rfl).2.2.2.2 5 rfl

/-- C9: every boolean the evaluator produces satisfies the singleton
discipline (`okVal`), under which a boolean value is TRUE or FALSE — no
evaluation path allocates a fresh boolean — and the identity comparison the
`==`/`!=` dispatch uses therefore agrees with structural boolean
equality. -/
theorem claim_C9_boolean_singletons :
    (∀ (e : Expr) (env : Env) (cnt : Nat) (v : GoVal) (env1 : Env) (cnt1 : Nat),
       okEnv env = true → evalExpr e env cnt = some (v, env1, cnt1) → okVal v = true) ∧
    (∀ (stmts : List Stmt) (env : Env) (cnt : Nat) (v : GoVal) (env1 : Env) (cnt1 : Nat),
       okEnv env = true → evalProgram stmts env cnt = some (v, env1, cnt1) → okVal v = true) ∧
    (∀ (id : Nat) (b : Bool) (v : GoVal), okVal v = true → v = some (Object.boolean id b) →
       v = some TRUE ∨ v = some FALSE) ∧
    (∀ b1 b2 : Bool,
       identityEq (nativeBooleanToObject b1) (nativeBooleanToObject b2) = (b1 == b2)) ∧
    (∀ b1 b2 : Bool,
       evalInfixExpression "==" (some (nativeBooleanToObject b1)) (some (nativeBooleanToObject b2)) =
         some (nativeBooleanToObject (b1 == b2))) ∧
    (∀ b1 b2 : Bool,
       evalInfixExpression "!=" (some (nativeBooleanToObject b1)) (some (nativeBooleanToObject b2)) =
         some (nativeBooleanToObject (!(b1 == b2)))) := by
  refine ⟨?_, ?_, ?_, ?_, ?_, ?_⟩
  · intro e env cnt v env1 cnt1 henv h
    exact (evalExpr_ok e env cnt v env1 cnt1 henv h).1
  · intro stmts env cnt v env1 cnt1 henv h
    exact (evalProgramStmts_ok stmts env cnt none v env1 cnt1 henv rfl h).1
  · rintro id b v hok rfl
    have hok' : ((id == 0 && b == true) || (id == 1 && b == false)) = true := hok
    simp only [Bool.or_eq_true, Bool.and_eq_true, beq_iff_eq] at hok'
    rcases hok' with ⟨rfl, rfl⟩ | ⟨rfl, rfl⟩
    · exact Or.inl rfl
    · exact Or.inr rfl
  · intro b1 b2
    cases b1 <;> cases b2 <;> rfl
  · intro b1 b2
    cases b1 <;> cases b2 <;> rfl
  · intro b1 b2
    cases b1 <;> cases b2 <;> rfl

/-- Witness for C9: the boolean produced by evaluating `true` is the TRUE
singleton. -/
theorem claim_C9_boolean_singletons_witness : okVal (some TRUE) = true :=
  claim_C9_boolean_singletons.1 (Expr.BooleanLiteral true) emptyEnv 0
    (some TRUE) emptyEnv 0 rfl rfl

/-- C10 counterexample: a program whose final (and only) statement is a let
statement can evaluate to a non-nil value — the unknown-identifier Error —
so the unconditional program-level sentence of the claim fails. -/
theorem claim_C10_counterexample :
    evalProgram [Stmt.LetStatement "x" (some (Expr.Identifier "foobar"))] emptyEnv 0 =
      some (some (Object.error (errIdentifierUnknownMsg "foobar")), emptyEnv, 0) ∧
    (some (Object.error (errIdentifierUnknownMsg "foobar")) : GoVal) ≠ none := by
  exact ⟨rfl, by simp⟩

/-- C10 amended: a let statement whose value does not evaluate to an Error
returns the host nil, any node outside the dispatch set (a CallExpression)
returns nil, nil is distinct from the Null singleton, and a program whose
final statement is a let returns nil provided no earlier statement produces
a ReturnValue or Error and the let's value does not evaluate to an Error. -/
theorem claim_C10_let_and_undispatched_yield_nil :
    (∀ (name : String) (e : Expr) (env : Env) (cnt : Nat) (val : GoVal) (env1 : Env) (cnt1 : Nat),
       evalExpr e env cnt = some (val, env1, cnt1) → isError val = false →
       evalStmt (Stmt.LetStatement name (some e)) env cnt =
         some (none, envSet env1 name val, cnt1)) ∧
    (∀ (callee : Expr) (args : List Expr) (env : Env) (cnt : Nat),
       evalExpr (Expr.CallExpression callee args) env cnt = some (none, env, cnt)) ∧
    ((none : GoVal) ≠ some NULL) ∧
    (∀ (stmts : List Stmt) (name : String) (v : Option Expr) (env : Env) (cnt : Nat)
       (env1 : Env) (cnt1 : Nat) (res : GoVal) (env2 : Env) (cnt2 : Nat),
       runNormally stmts env cnt = some (env1, cnt1) →
       evalStmt (Stmt.LetStatement name v) env1 cnt1 = some (res, env2, cnt2) →
       isError res = false →
       evalProgram (stmts ++ [Stmt.LetStatement name v]) env cnt = some (none, env2, cnt2)) := by
  refine ⟨?_, ?_, ?_, ?_⟩
  · intro name e env cnt val env1 cnt1 heq herr
    have step : evalStmt (Stmt.LetStatement name (some e)) env cnt =
        (if isError val then some (val, env1, cnt1)
         else some (none, envSet env1 name val, cnt1)) := by
      rw [evalStmt_eq_letSome, heq]
    rw [step, if_neg (by simp [herr])]
  · intro callee args env cnt
    exact evalExpr_eq_call callee args env cnt
  · simp
  · intro stmts name v env cnt env1 cnt1 res env2 cnt2 hrun hlet herr
    exact runNormally_append_let stmts env cnt none name v env1 cnt1 res env2 cnt2 hrun hlet herr

/-- Witness for the amended C10 at `1; let x = 5;`. -/
theorem claim_C10_let_yield_nil_witness :
    evalProgram [Stmt.ExpressionStatement (Expr.IntegerLiteral 1),
      Stmt.LetStatement "x" (some (Expr.IntegerLiteral 5))] emptyEnv 0 =
      some (none, envSet emptyEnv "x" (some (Object.integer 5)), 0) :=
  claim_C10_let_and_undispatched_yield_nil.2.2.2
    [Stmt.ExpressionStatement (Expr.IntegerLiteral 1)] "x" (some (Expr.IntegerLiteral 5))
    emptyEnv 0 emptyEnv 0 none (envSet emptyEnv "x" (some (Object.integer 5))) 0 rfl rfl rfl

/-- C4, at the failing input `let x = 5;`: the parser produces exactly one
let statement with the right name, but its value field is left nil — the
bound expression is skipped, not parsed — contradicting the claim (and the
repository's own `TestLetStatements`/`checkLetStatement`, which require the
value to be the integer literal 5). -/
theorem claim_C4_let_value_discarded :
    parseProgram letX5Tokens = ([Stmt.LetStatement "x" none], []) ∧
    Stmt.LetStatement "x" none ≠ Stmt.LetStatement "x" (some (Expr.IntegerLiteral 5)) := by
  exact ⟨rfl, by simp⟩

/-- C5, at the failing input `a + b * c + d / e - f`: the shown parser has
no expression parsing at all (`parseStatement` returns nil for every
leading token except `let`), so the program parses to zero statements and
renders as the empty string, not the fully-parenthesized text the claim
(and the repository's own `TestOperatorPrecedenceParsing`) requires. -/
theorem claim_C5_no_expression_parsing :
    (parseProgram precedenceTokens).1 = [] ∧
    renderProgram (parseProgram precedenceTokens).1 = "" ∧
    renderProgram (parseProgram precedenceTokens).1 ≠ "(((a + (b * c)) + (d / e)) - f);" := by
  refine ⟨rfl, rfl, ?_⟩
  intro h
  exact absurd h (by decide)

/-- C6, at the failing input `let x 5; let y = 7;`: the parser writes the
expected-versus-actual diagnostic to its standard-error log (modelled as the
second component) and parsing continues — the following well-formed let
statement still parses — but nothing is accumulated in the parser for the
caller: the shown parser has no diagnostics list and no `Errors()` method,
while the repository's own `checkParserErrors` calls `p.Errors()`. -/
theorem claim_C6_diagnostics_printed_not_returned :
    parseProgram letMissingAssignTokens =
      ([Stmt.LetStatement "y" none], [expectPeekMsg ⟨T_INTEGER, "5"⟩ T_ASSIGN]) ∧
    expectPeekMsg ⟨T_INTEGER, "5"⟩ T_ASSIGN =
      "unexpected token of type \"INTEGER\": \"5\", expected token of type \"ASSIGN\"" := by
  exact ⟨rfl, rfl⟩

/-- C8, at the failing inputs `return 5;` and `foobar;`: statement parsing
dispatches only on `let` — a return token or any other token yields no
statement at all, so both programs parse to zero statements instead of one,
contradicting the claim (and the repository's own `TestReturnStatements`). -/
theorem claim_C8_only_let_dispatch :
    (parseProgram return5Tokens).1 = [] ∧
    (parseProgram foobarTokens).1 = [] ∧
    (parseProgram return5Tokens).1.length ≠ 1 := by
  exact ⟨rfl, rfl, by decide⟩
